import Mathlib

set_option maxRecDepth 100000

/-!
Verification development for the mentor-assistant backend
(`backend/src/index.ts`, variant B, and `backend/api/index.ts`, variant A).

The development shallowly embeds the parts of the program the claims are
about:

* the structured-response extraction step (`indexOf`/`lastIndexOf`/
  `substring` followed by `JSON.parse`), including the argument-swapping
  semantics of JavaScript `String.prototype.substring`;
* a JSON value type together with a serializer and a parser modelling
  ECMA-404 `JSON.parse` (objects are kept as field lists in textual
  order; numbers are kept as their lexemes);
* the prompt builders of the two handler variants;
* the full control flow of the `GET /summary/:mentorId/:tutorId` route,
  with the external collaborators (token verifier, document store, AI
  provider) supplied as oracles in an environment record, and the calls
  actually made recorded in a trace.

Strings are modelled as sequences of unicode scalar values (JavaScript
indexes by UTF-16 code units; the difference is irrelevant to every
claim, none of which involves astral-plane characters).
-/

namespace MentorBackend

/-! ## JSON values

A mutual inductive family is used instead of nested `List` so that all
recursions below are structural.  An object keeps its fields in textual
order; a number keeps its lexeme (the claims never compare distinct
spellings of one number). -/

mutual

inductive Json where
  | null : Json
  | bool (b : Bool) : Json
  | num (lexeme : String) : Json
  | str (s : String) : Json
  | arr (elems : JsonList) : Json
  | obj (fields : JsonFields) : Json
  deriving DecidableEq

inductive JsonList where
  | nil : JsonList
  | cons (hd : Json) (tl : JsonList) : JsonList
  deriving DecidableEq

inductive JsonFields where
  | nil : JsonFields
  | fcons (key : String) (val : Json) (tl : JsonFields) : JsonFields
  deriving DecidableEq

end

/-! ## JSON serialization

A standard compact serializer.  It is the reference serialization used by
the round-trip claim; control characters, the quote and the backslash are
escaped, everything else is emitted verbatim. -/

/-- Lower-case hexadecimal digit for a value below 16. -/
def hexDigitChar (n : Nat) : Char :=
  if n < 10 then Char.ofNat (48 + n) else Char.ofNat (87 + n)

/-- Serialization of one character inside a JSON string literal. -/
def encChar (c : Char) : List Char :=
  if c = '\x22' then ['\\', '\x22']
  else if c = '\\' then ['\\', '\\']
  else if c = '\x08' then ['\\', 'b']
  else if c = '\x0c' then ['\\', 'f']
  else if c = '\n' then ['\\', 'n']
  else if c = '\x0d' then ['\\', 'r']
  else if c = '\x09' then ['\\', 't']
  else if c.toNat < 32 then
    ['\\', 'u', '0', '0', hexDigitChar (c.toNat / 16), hexDigitChar (c.toNat % 16)]
  else [c]

/-- Serialization of the characters of a JSON string literal body. -/
def encStrL : List Char → List Char
  | [] => []
  | c :: cs => encChar c ++ encStrL cs

mutual

/-- Compact serialization of a JSON value. -/
def encJson : Json → List Char
  | .null => "null".toList
  | .bool true => "true".toList
  | .bool false => "false".toList
  | .num lx => lx.toList
  | .str s => '\x22' :: (encStrL s.toList ++ ['\x22'])
  | .arr es => '[' :: (encElems es ++ [']'])
  | .obj fs => '\x7b' :: (encFields fs ++ ['\x7d'])

/-- Serialization of the element list of an array (no brackets). -/
def encElems : JsonList → List Char
  | .nil => []
  | .cons h t => encJson h ++ encElemsTail t

/-- Serialization of the elements after the first one (comma-prefixed). -/
def encElemsTail : JsonList → List Char
  | .nil => []
  | .cons h t => ',' :: (encJson h ++ encElemsTail t)

/-- Serialization of the field list of an object (no braces). -/
def encFields : JsonFields → List Char
  | .nil => []
  | .fcons k v t =>
    ('\x22' :: (encStrL k.toList ++ '\x22' :: ':' :: encJson v)) ++ encFieldsTail t

/-- Serialization of the fields after the first one (comma-prefixed). -/
def encFieldsTail : JsonFields → List Char
  | .nil => []
  | .fcons k v t =>
    ',' :: (('\x22' :: (encStrL k.toList ++ '\x22' :: ':' :: encJson v)) ++ encFieldsTail t)

end

/-- Serialization of one object field. -/
def encField (k : String) (v : Json) : List Char :=
  '\x22' :: (encStrL k.toList ++ '\x22' :: ':' :: encJson v)

/-- Compact serialization of a JSON value, as a string. -/
def Json.serialize (j : Json) : String := ⟨encJson j⟩

/-! ## JSON parsing (the model of JavaScript `JSON.parse`)

A fueled recursive-descent parser for the ECMA-404 grammar.  The fuel is
only a termination device: `length + 1` units are always enough (proved
below for serialized values).  Whitespace is the four JSON whitespace
characters.  Objects are returned as field lists in textual order. -/

/-- Skip JSON whitespace (space, tab, line feed, carriage return). -/
def skipWs : List Char → List Char
  | [] => []
  | c :: cs =>
    if c = ' ' ∨ c = '\x09' ∨ c = '\n' ∨ c = '\x0d' then skipWs cs else c :: cs

/-- Value of a hexadecimal digit. -/
def hexVal? (c : Char) : Option Nat :=
  if '0' ≤ c ∧ c ≤ '9' then some (c.toNat - 48)
  else if 'a' ≤ c ∧ c ≤ 'f' then some (c.toNat - 87)
  else if 'A' ≤ c ∧ c ≤ 'F' then some (c.toNat - 55)
  else none

/-- Parse the body of a JSON string literal after the opening quote,
with an accumulator of the characters read so far (reversed).  Returns
the string and the input after the closing quote. -/
def parseStrAux : List Char → List Char → Except String (String × List Char)
  | _, [] => .error "unterminated string literal"
  | acc, c :: cs =>
    if c = '\x22' then .ok (⟨acc.reverse⟩, cs)
    else if c = '\\' then
      match cs with
      | [] => .error "unterminated escape"
      | e :: cs2 =>
        if e = 'u' then
          match cs2 with
          | h1 :: h2 :: h3 :: h4 :: cs3 =>
            match hexVal? h1, hexVal? h2, hexVal? h3, hexVal? h4 with
            | some a, some b, some c, some d =>
              parseStrAux (Char.ofNat (((a * 16 + b) * 16 + c) * 16 + d) :: acc) cs3
            | _, _, _, _ => .error "invalid unicode escape"
          | _ => .error "invalid unicode escape"
        else if e = '\x22' then parseStrAux ('\x22' :: acc) cs2
        else if e = '\\' then parseStrAux ('\\' :: acc) cs2
        else if e = '/' then parseStrAux ('/' :: acc) cs2
        else if e = 'b' then parseStrAux ('\x08' :: acc) cs2
        else if e = 'f' then parseStrAux ('\x0c' :: acc) cs2
        else if e = 'n' then parseStrAux ('\n' :: acc) cs2
        else if e = 'r' then parseStrAux ('\x0d' :: acc) cs2
        else if e = 't' then parseStrAux ('\x09' :: acc) cs2
        else .error "invalid escape"
    else if c.toNat < 32 then .error "control character in string"
    else parseStrAux (c :: acc) cs

/-- Take the longest run of decimal digits. -/
def takeDigits : List Char → List Char × List Char
  | [] => ([], [])
  | c :: cs =>
    if c.isDigit then
      let p := takeDigits cs
      (c :: p.1, p.2)
    else ([], c :: cs)

/-- Lex the integer part of a JSON number (a lone zero, or a nonzero
digit followed by digits). -/
def lexIntPart : List Char → Option (List Char × List Char)
  | [] => none
  | c :: r =>
    if c = '0' then some (['0'], r)
    else if c.isDigit then
      let p := takeDigits r
      some (c :: p.1, p.2)
    else none

/-- Lex the optional fractional part of a JSON number. -/
def lexFrac : List Char → Option (List Char × List Char)
  | [] => some ([], [])
  | c :: r =>
    if c = '.' then
      match takeDigits r with
      | ([], _) => none
      | (ds, r2) => some ('.' :: ds, r2)
    else some ([], c :: r)

/-- Lex the optional exponent part of a JSON number. -/
def lexExp : List Char → Option (List Char × List Char)
  | [] => some ([], [])
  | e :: r =>
    if e = 'e' ∨ e = 'E' then
      let p : List Char × List Char :=
        match r with
        | [] => ([], [])
        | d :: rr =>
          if d = '+' then (['+'], rr)
          else if d = '-' then (['-'], rr)
          else ([], d :: rr)
      match takeDigits p.2 with
      | ([], _) => none
      | (ds, r2) => some (e :: (p.1 ++ ds), r2)
    else some ([], e :: r)

/-- Lex a JSON number lexeme (sign, integer part, fraction, exponent). -/
def lexNumber : List Char → Option (List Char × List Char)
  | [] => none
  | c :: r =>
    let p : List Char × List Char :=
      if c = '-' then (['-'], r) else ([], c :: r)
    match lexIntPart p.2 with
    | none => none
    | some (ip, r1) =>
      match lexFrac r1 with
      | none => none
      | some (fp, r2) =>
        match lexExp r2 with
        | none => none
        | some (ep, r3) => some (p.1 ++ ip ++ fp ++ ep, r3)

mutual

/-- Parse one JSON value (leading whitespace allowed); returns the value
and the unconsumed input (trailing whitespace not consumed). -/
def parseValue : Nat → List Char → Except String (Json × List Char)
  | 0, _ => .error "out of fuel"
  | fuel + 1, s =>
    match skipWs s with
    | [] => .error "unexpected end of input"
    | c :: cs =>
      if c = 'n' then
        match cs with
        | 'u' :: 'l' :: 'l' :: r => .ok (.null, r)
        | _ => .error "invalid literal"
      else if c = 't' then
        match cs with
        | 'r' :: 'u' :: 'e' :: r => .ok (.bool true, r)
        | _ => .error "invalid literal"
      else if c = 'f' then
        match cs with
        | 'a' :: 'l' :: 's' :: 'e' :: r => .ok (.bool false, r)
        | _ => .error "invalid literal"
      else if c = '\x22' then
        match parseStrAux [] cs with
        | .ok (s, r) => .ok (.str s, r)
        | .error e => .error e
      else if c = '[' then
        let s2 := skipWs cs
        if s2.head? = some ']' then .ok (.arr .nil, s2.tail)
        else
          match parseElems fuel s2 with
          | .ok (es, r) => .ok (.arr es, r)
          | .error e => .error e
      else if c = '\x7b' then
        let s2 := skipWs cs
        if s2.head? = some '\x7d' then .ok (.obj .nil, s2.tail)
        else
          match parseMembers fuel s2 with
          | .ok (fs, r) => .ok (.obj fs, r)
          | .error e => .error e
      else if c = '-' ∨ c.isDigit then
        match lexNumber (c :: cs) with
        | some (lx, r) => .ok (.num ⟨lx⟩, r)
        | none => .error "invalid number"
      else .error "unexpected character"

/-- Parse the comma-separated elements of a nonempty array, consuming
the closing bracket. -/
def parseElems : Nat → List Char → Except String (JsonList × List Char)
  | 0, _ => .error "out of fuel"
  | fuel + 1, s =>
    match parseValue fuel s with
    | .error e => .error e
    | .ok (v, r) =>
      let r1 := skipWs r
      if r1.head? = some ',' then
        match parseElems fuel r1.tail with
        | .ok (t, r3) => .ok (.cons v t, r3)
        | .error e => .error e
      else if r1.head? = some ']' then .ok (.cons v .nil, r1.tail)
      else .error "expected comma or closing bracket"

/-- Parse the comma-separated members of a nonempty object, consuming
the closing brace. -/
def parseMembers : Nat → List Char → Except String (JsonFields × List Char)
  | 0, _ => .error "out of fuel"
  | fuel + 1, s =>
    let s1 := skipWs s
    if s1.head? = some '\x22' then
      match parseStrAux [] s1.tail with
      | .error e => .error e
      | .ok (k, r) =>
        let r1 := skipWs r
        if r1.head? = some ':' then
          match parseValue fuel r1.tail with
          | .error e => .error e
          | .ok (v, r3) =>
            let r4 := skipWs r3
            if r4.head? = some ',' then
              match parseMembers fuel r4.tail with
              | .ok (t, r5) => .ok (.fcons k v t, r5)
              | .error e => .error e
            else if r4.head? = some '\x7d' then .ok (.fcons k v .nil, r4.tail)
            else .error "expected comma or closing brace"
        else .error "expected colon"
    else .error "expected string key"

end

/-- Full-text JSON parse of a character sequence: one value surrounded by
optional whitespace, nothing else.  This is the model of `JSON.parse`. -/
def parseTextL (l : List Char) : Except String Json :=
  match parseValue (l.length + 1) l with
  | .error e => .error e
  | .ok (j, r) =>
    match skipWs r with
    | [] => .ok j
    | _ => .error "unexpected trailing characters"

/-- The model of `JSON.parse` on strings. -/
def jsonParse (s : String) : Except String Json := parseTextL s.toList

/-! ## Round-trip infrastructure

`natLexOK` singles out the number lexemes the reference serializer can
produce for the values the round-trip claim quantifies over (decimal
naturals without a leading zero); `wf` requires every number of a value
to carry such a lexeme.  `fuelNeed` is the fuel budget the completeness
proof charges a value, bounded by its serialized length. -/

/-- A decimal-natural lexeme: nonempty, all digits, no leading zero
(except the lone zero). -/
def natLexOK (lx : String) : Bool :=
  match lx.toList with
  | [] => false
  | c :: cs => (c :: cs).all Char.isDigit && (decide (c ≠ '0') || cs.isEmpty)

mutual

/-- Well-formedness: every number lexeme is a decimal natural. -/
def Json.wf : Json → Bool
  | .num lx => natLexOK lx
  | .arr es => JsonList.wf es
  | .obj fs => JsonFields.wf fs
  | _ => true

/-- Well-formedness of an element list. -/
def JsonList.wf : JsonList → Bool
  | .nil => true
  | .cons h t => Json.wf h && JsonList.wf t

/-- Well-formedness of a field list. -/
def JsonFields.wf : JsonFields → Bool
  | .nil => true
  | .fcons _ v t => Json.wf v && JsonFields.wf t

end

mutual

/-- Fuel budget of a value for the fueled parser. -/
def Json.fuelNeed : Json → Nat
  | .null => 1
  | .bool _ => 1
  | .num _ => 1
  | .str _ => 1
  | .arr es => 1 + JsonList.fuelNeed es
  | .obj fs => 1 + JsonFields.fuelNeed fs

/-- Fuel budget of an element list for `parseElems`. -/
def JsonList.fuelNeed : JsonList → Nat
  | .nil => 0
  | .cons h t => 1 + Json.fuelNeed h + JsonList.fuelNeed t

/-- Fuel budget of a field list for `parseMembers`. -/
def JsonFields.fuelNeed : JsonFields → Nat
  | .nil => 0
  | .fcons _ v t => 1 + Json.fuelNeed v + JsonFields.fuelNeed t

end

/-- A list whose head (if any) is a separator that can legally follow a
serialized value: a comma, a closing bracket or a closing brace. -/
def sepHead : List Char → Prop
  | [] => True
  | c :: _ => c = ',' ∨ c = ']' ∨ c = '\x7d'

/-- A list whose head (if any) is not a decimal digit. -/
def noDigitHead : List Char → Prop
  | [] => True
  | c :: _ => c.isDigit = false

/-- The characters a serialized JSON value can start with. -/
def valueStart (c : Char) : Prop :=
  c = 'n' ∨ c = 't' ∨ c = 'f' ∨ c = '\x22' ∨ c = '[' ∨ c = '\x7b' ∨ c.isDigit = true

/-- Substring containment of strings (the pattern occurs contiguously
somewhere in `s`). -/
def strHasP (s pat : String) : Prop :=
  ∃ u v, s = u ++ pat ++ v

/-! ## The structured-response extraction step

Model of lines 168-187 of `backend/src/index.ts` (identical in
`backend/api/index.ts`): the index of the first opening brace, the index
of the last closing brace, the `substring` between them (JavaScript
`substring` swaps its arguments when the start exceeds the end), and a
`JSON.parse` of the result. -/

/-- Index of the first occurrence of a character (JavaScript `indexOf`,
with `none` for `-1`). -/
def firstIdx (c : Char) : List Char → Option Nat
  | [] => none
  | a :: as => if a = c then some 0 else (firstIdx c as).map (· + 1)

/-- Index of the last occurrence of a character (JavaScript
`lastIndexOf`, with `none` for `-1`). -/
def lastIdx (c : Char) : List Char → Option Nat
  | [] => none
  | a :: as =>
    match lastIdx c as with
    | some i => some (i + 1)
    | none => if a = c then some 0 else none

/-- JavaScript `String.prototype.substring` on in-range indices: the
characters in `[min a b, max a b)` (the arguments are swapped when the
start exceeds the end). -/
def jsSubstring (l : List Char) (a b : Nat) : List Char :=
  (l.take (max a b)).drop (min a b)

/-- Failures of the extraction step, named as in the specification:
`noJsonFound` for the thrown `"AI response did not contain valid JSON."`
and `malformedJson` for a `JSON.parse` exception (carrying the parser
error). -/
inductive ExtractErr where
  | noJsonFound : ExtractErr
  | malformedJson (cause : String) : ExtractErr
  deriving DecidableEq

/-- The extraction step: first `\x7b`, last `\x7d`, `substring`,
`JSON.parse`. -/
def extract (raw : String) : Except ExtractErr Json :=
  match firstIdx '\x7b' raw.toList, lastIdx '\x7d' raw.toList with
  | some si, some ei =>
    match parseTextL (jsSubstring raw.toList si (ei + 1)) with
    | .ok j => .ok j
    | .error e => .error (.malformedJson e)
  | _, _ => .error .noJsonFound

/-! ## Incidents and the prompt builders -/

/-- An incident record as consumed by the handlers: an optional date
(already rendered to its ISO-8601 string, as produced by
`date.toDate().toISOString()` on the stored timestamp) and a
description. -/
structure Incident where
  date : Option String
  description : String
  deriving DecidableEq

/-- Rendering of one incident for the prompt:
`date.toDate().toISOString() ?? "unknown date"` followed by a colon, a
space and the description. -/
def renderIncident (inc : Incident) : String :=
  (inc.date.getD "unknown date") ++ ": " ++ inc.description

/-- One criterion line of the variant-B prompt schema block. -/
def critLine (name : String) : String :=
  "    \x22" ++ name ++
    "\x22: \x7b \x22score\x22: 1-5, \x22justification\x22: \x22Your justification.\x22 \x7d"

/-- The seven fixed criterion names, in the order of the prompt. -/
def criteriaNames : List String :=
  ["Suggests New Ideas", "Collaboration", "Responsiveness", "Adaptability",
   "Feedback", "Attendance", "Professionalism"]

/-- The verbatim JSON-schema block of the variant-B prompt (the lines
from the opening brace to the closing brace of the required response
shape). -/
def schemaBlockB : String :=
  "\x7b\n" ++
  "  \x22summary\x22: \x22Your 2-3 sentence summary here.\x22,\n" ++
  "  \x22scores\x22: \x7b\n" ++
  critLine "Suggests New Ideas" ++ ",\n" ++
  critLine "Collaboration" ++ ",\n" ++
  critLine "Responsiveness" ++ ",\n" ++
  critLine "Adaptability" ++ ",\n" ++
  critLine "Feedback" ++ ",\n" ++
  critLine "Attendance" ++ ",\n" ++
  critLine "Professionalism" ++ "\n" ++
  "  \x7d\n" ++
  "\x7d\n"

/-- The line of the variant-B prompt stating the 1-5 scale. -/
def scaleLineB : String :=
  "1 = Poor, 2 = Needs Improvement, 3 = Neutral / Insufficient Information, 4 = Good, 5 = Excellent\n"

/-- The line of the variant-B prompt stating the neutral-default rule. -/
def neutralRuleLineB : String :=
  "**CRITICAL RULE:** If there is NO INFORMATION, score it as 3 (Neutral) and justify with \x27Insufficient information.\x27\n"

/-- The line of the variant-B prompt mandating holistic analysis and
forbidding per-incident summarization. -/
def holisticLineB : String :=
  "Analyze ALL incidents AS A WHOLE. Do NOT summarize each incident individually.\n"

/-- The fixed part of the variant-B prompt (`backend/src/index.ts` lines
121-147), up to and including the line `Here are the incidents:`. -/
def promptPreB : String :=
  "\n" ++
  "You are an educational performance assistant. Your task is to analyze a list of incidents for a tutor and provide a holistic performance summary.\n" ++
  holisticLineB ++
  "\n" ++
  "Respond ONLY with a JSON object.\n" ++
  "\n" ++
  "You MUST provide a detailed performance score for EACH of the 7 criteria.\n" ++
  "Use a 1-5 scale:\n" ++
  scaleLineB ++
  neutralRuleLineB ++
  "\n" ++
  "Your response MUST match this JSON schema:\n" ++
  schemaBlockB ++
  "\n" ++
  "Here are the incidents:\n"

/-- The variant-B prompt builder: the fixed template with the rendered
incidents joined by newlines spliced in. -/
def buildPromptB (texts : List String) : String :=
  promptPreB ++ String.intercalate "\n" texts ++ "\n"

/-- The fixed part of the variant-A prompt (`backend/api/index.ts` lines
129-138), up to and including the line `Here are the incidents:`. -/
def promptPreA : String :=
  "\n" ++
  "You are an educational performance assistant. Your task is to analyze a list of incidents for a tutor and provide a holistic performance summary.\n" ++
  "Analyze ALL incidents AS A WHOLE. You MUST NOT summarize each incident individually.\n" ++
  "Respond ONLY with a JSON object matching this schema:\n" ++
  "\x7b\n" ++
  "  \x22summary\x22: \x22A 2-3 sentence overall summary of performance.\x22,\n" ++
  "  \x22patterns\x22: [\x22A list of key behavioral patterns (strengths or weaknesses).\x22],\n" ++
  "  \x22suggestions\x22: [\x22A list of actionable suggestions for improvement (if any).\x22]\n" ++
  "\x7d\n" ++
  "Here are the incidents:\n"

/-- The variant-A prompt builder. -/
def buildPromptA (texts : List String) : String :=
  promptPreA ++ String.intercalate "\n" texts ++ "\n"

/-! ## Response schemas requested from the AI provider

The `jsonSchema` objects handed to the provider in `generationConfig`,
rendered as JSON values with the `SchemaType` enum constants kept by
name. -/

/-- The variant-B `jsonSchema` (summary string, scores object). -/
def schemaB : Json :=
  .obj (.fcons "type" (.str "OBJECT")
    (.fcons "properties"
      (.obj (.fcons "summary" (.obj (.fcons "type" (.str "STRING") .nil))
        (.fcons "scores" (.obj (.fcons "type" (.str "OBJECT") .nil)) .nil)))
      (.fcons "required" (.arr (.cons (.str "summary") (.cons (.str "scores") .nil)))
        .nil)))

/-- The variant-A `jsonSchema` (summary string, patterns and suggestions
string arrays). -/
def schemaA : Json :=
  .obj (.fcons "type" (.str "OBJECT")
    (.fcons "properties"
      (.obj (.fcons "summary" (.obj (.fcons "type" (.str "STRING") .nil))
        (.fcons "patterns"
          (.obj (.fcons "type" (.str "ARRAY")
            (.fcons "items" (.obj (.fcons "type" (.str "STRING") .nil)) .nil)))
          (.fcons "suggestions"
            (.obj (.fcons "type" (.str "ARRAY")
              (.fcons "items" (.obj (.fcons "type" (.str "STRING") .nil)) .nil)))
            .nil))))
      (.fcons "required"
        (.arr (.cons (.str "summary")
          (.cons (.str "patterns") (.cons (.str "suggestions") .nil))))
        .nil)))

/-! ## The route handler

The `GET /summary/:mentorId/:tutorId` handler, `verifyToken` middleware
included.  External collaborators are oracles in `Env`; `aiResult` is
the provider behaviour for this request (an exception, or a response
with possibly-missing text — note that in the source an *empty* text is
also treated as missing, since `!jsonString` is true of `""`).  The
`Trace` records which collaborators were actually contacted and what was
sent to the provider. -/

/-- HTTP response bodies produced by the handlers. -/
def unauthorizedBody : Json :=
  .obj (.fcons "error" (.str "Unauthorized: No token provided.") .nil)

/-- Body of the 403 sent when token verification fails. -/
def invalidTokenBody : Json :=
  .obj (.fcons "error" (.str "Forbidden: Invalid token.") .nil)

/-- Body of the 403 sent when the caller is not the path owner. -/
def notOwnerBody : Json :=
  .obj (.fcons "error" (.str "Forbidden: You can only access your own data.") .nil)

/-- Body of the catch-all 500. -/
def genericFailureBody : Json :=
  .obj (.fcons "message" (.str "Something wrong happened") .nil)

/-- Variant-A canned empty result (empty patterns and suggestions). -/
def emptyBodyA : Json :=
  .obj (.fcons "summary" (.str "No incidents to summarize yet.")
    (.fcons "patterns" (.arr .nil)
      (.fcons "suggestions" (.arr .nil) .nil)))

/-- Variant-B canned empty result (empty scores object). -/
def emptyBodyB : Json :=
  .obj (.fcons "summary" (.str "No incidents to summarize yet.")
    (.fcons "scores" (.obj .nil) .nil))

/-- What distinguishes the two handler variants: the canned empty
response, the prompt builder, and the response schema requested from the
provider. -/
structure VariantConfig where
  emptyBody : Json
  mkPrompt : List String → String
  schemaSpec : Json

/-- The variant-A configuration (`backend/api/index.ts`). -/
def cfgA : VariantConfig := ⟨emptyBodyA, buildPromptA, schemaA⟩

/-- The variant-B configuration (`backend/src/index.ts`). -/
def cfgB : VariantConfig := ⟨emptyBodyB, buildPromptB, schemaB⟩

/-- An incoming request: the Authorization header (if any) and the two
path parameters. -/
structure Req where
  authHeader : Option String
  mentorId : String
  tutorId : String

/-- The external collaborators, as oracles: `verify` maps a token to a
verified uid or a rejection; `fetchIncidents` reads the incident
collection or throws; `aiResult` is the outcome of the provider call
for this request (`.error` for a thrown exception, `.ok none` for a
response without text). -/
structure Env where
  verify : String → Except Unit String
  fetchIncidents : String → String → Except Unit (List Incident)
  aiResult : Except Unit (Option String)

/-- Which collaborators were contacted, and what was sent to the
provider. -/
structure Trace where
  verifierCalled : Bool
  storeCalled : Bool
  aiCalled : Bool
  promptSent : Option String
  schemaSent : Option Json
  deriving DecidableEq

/-- An HTTP response. -/
structure Resp where
  status : Nat
  body : Json
  deriving DecidableEq

/-- Whether `pat` is an initial segment of `s` (character-wise). -/
def leadsWith : List Char → List Char → Bool
  | [], _ => true
  | _ :: _, [] => false
  | p :: ps, c :: cs => p = c && leadsWith ps cs

/-- JavaScript `String.prototype.startsWith` with a plain-text
argument. -/
def jsStartsWith (s pat : String) : Bool :=
  leadsWith pat.toList s.toList

/-- The token passed to the verifier:
`authHeader.split("Bearer ")[1]`. -/
def bearerToken (h : String) : String :=
  (h.splitOn "Bearer ").getD 1 ""

/-- The `GET /summary/:mentorId/:tutorId` handler (with its
`verifyToken` middleware), parametrised by the variant configuration. -/
def handle (cfg : VariantConfig) (req : Req) (env : Env) : Resp × Trace :=
  match req.authHeader with
  | none => (⟨401, unauthorizedBody⟩, ⟨false, false, false, none, none⟩)
  | some h =>
    if jsStartsWith h "Bearer " then
      match env.verify (bearerToken h) with
      | .error _ => (⟨403, invalidTokenBody⟩, ⟨true, false, false, none, none⟩)
      | .ok uid =>
        if uid = req.mentorId then
          match env.fetchIncidents req.mentorId req.tutorId with
          | .error _ => (⟨500, genericFailureBody⟩, ⟨true, true, false, none, none⟩)
          | .ok incidents =>
            if incidents.isEmpty then
              (⟨200, cfg.emptyBody⟩, ⟨true, true, false, none, none⟩)
            else
              let prompt := cfg.mkPrompt (incidents.map renderIncident)
              let tr : Trace := ⟨true, true, true, some prompt, some cfg.schemaSpec⟩
              match env.aiResult with
              | .error _ => (⟨500, genericFailureBody⟩, tr)
              | .ok none => (⟨500, genericFailureBody⟩, tr)
              | .ok (some text) =>
                if text = "" then (⟨500, genericFailureBody⟩, tr)
                else
                  match extract text with
                  | .error _ => (⟨500, genericFailureBody⟩, tr)
                  | .ok j => (⟨200, j⟩, tr)
        else (⟨403, notOwnerBody⟩, ⟨true, false, false, none, none⟩)
    else (⟨401, unauthorizedBody⟩, ⟨false, false, false, none, none⟩)

/-- The variant-A handler (`backend/api/index.ts` lines 75-184). -/
def handleA (req : Req) (env : Env) : Resp × Trace := handle cfgA req env

/-- The variant-B handler (`backend/src/index.ts` lines 75-193). -/
def handleB (req : Req) (env : Env) : Resp × Trace := handle cfgB req env

/-! ## SummaryResult values

The variant-B result shape: a summary and a score (with justification)
for each of the seven criteria.  `toJson` is its canonical JSON shape
and `serializeResult` its serialization, used by the round-trip
claim. -/

/-- One scored criterion. -/
structure ScoreCriterion where
  score : Nat
  justification : String
  deriving DecidableEq

/-- The variant-B result value. -/
structure SummaryResult where
  summary : String
  scores : List (String × ScoreCriterion)
  deriving DecidableEq

/-- A valid result: exactly the seven fixed criteria, in order, each
scored in `[1, 5]`. -/
def SummaryResult.Valid (x : SummaryResult) : Prop :=
  x.scores.map Prod.fst = criteriaNames ∧
    ∀ p ∈ x.scores, 1 ≤ p.2.score ∧ p.2.score ≤ 5

/-- JSON shape of one scores entry. -/
def scoreToJson (sc : ScoreCriterion) : Json :=
  .obj (.fcons "score" (.num (toString sc.score))
    (.fcons "justification" (.str sc.justification) .nil))

/-- JSON fields of the scores object. -/
def scoresToFields : List (String × ScoreCriterion) → JsonFields
  | [] => .nil
  | (name, sc) :: rest => .fcons name (scoreToJson sc) (scoresToFields rest)

/-- JSON shape of a result value. -/
def SummaryResult.toJson (x : SummaryResult) : Json :=
  .obj (.fcons "summary" (.str x.summary)
    (.fcons "scores" (.obj (scoresToFields x.scores)) .nil))

/-- Serialization of a result value. -/
def serializeResult (x : SummaryResult) : String :=
  (x.toJson).serialize

/-! ## Concrete inputs used to instantiate the theorems -/

/-- An environment whose verifier accepts every token as `m1` and whose
store and provider behave as given. -/
def mkEnv (fetch : Except Unit (List Incident)) (ai : Except Unit (Option String)) : Env :=
  ⟨fun _ => .ok "m1", fun _ _ => fetch, ai⟩

/-- An environment whose verifier rejects every token. -/
def envVerifyFail : Env :=
  ⟨fun _ => .error (), fun _ _ => .ok [], .ok none⟩

/-- A request with a well-formed bearer header for owner `m1`. -/
def req0 : Req := ⟨some "Bearer tk", "m1", "t1"⟩

/-- A request without an Authorization header. -/
def reqNoAuth : Req := ⟨none, "m1", "t1"⟩

/-- A request whose Authorization header lacks the Bearer prefix. -/
def reqBadAuth : Req := ⟨some "Token tk", "m1", "t1"⟩

/-- A sample incident. -/
def sampleIncident : Incident := ⟨none, "was late"⟩

/-- A sample valid result: all seven criteria scored 3. -/
def sampleResult : SummaryResult :=
  ⟨"", criteriaNames.map (fun n => (n, ⟨3, ""⟩))⟩

/-! ## Lemmas: whitespace, starting characters, digits -/

theorem skipWs_cons_of_not_ws {c : Char} (cs : List Char)
    (h : ¬(c = ' ' ∨ c = '\x09' ∨ c = '\n' ∨ c = '\x0d')) :
    skipWs (c :: cs) = c :: cs := by
  simp [skipWs, h]

theorem valueStart_not_ws {c : Char} (h : valueStart c) :
    ¬(c = ' ' ∨ c = '\x09' ∨ c = '\n' ∨ c = '\x0d') := by
  rcases h with rfl | rfl | rfl | rfl | rfl | rfl | hd
  · decide
  · decide
  · decide
  · decide
  · decide
  · decide
  · rintro (rfl | rfl | rfl | rfl) <;> exact absurd hd (by decide)

theorem valueStart_ne_rbracket {c : Char} (h : valueStart c) : c ≠ ']' := by
  rcases h with rfl | rfl | rfl | rfl | rfl | rfl | hd
  · decide
  · decide
  · decide
  · decide
  · decide
  · decide
  · rintro rfl; exact absurd hd (by decide)

theorem isDigit_not_ws {c : Char} (hd : c.isDigit = true) :
    ¬(c = ' ' ∨ c = '\x09' ∨ c = '\n' ∨ c = '\x0d') := by
  rintro (rfl | rfl | rfl | rfl) <;> exact absurd hd (by decide)

theorem isDigit_ne_n {c : Char} (hd : c.isDigit = true) : c ≠ 'n' := by
  rintro rfl; exact absurd hd (by decide)

theorem isDigit_ne_t {c : Char} (hd : c.isDigit = true) : c ≠ 't' := by
  rintro rfl; exact absurd hd (by decide)

theorem isDigit_ne_f {c : Char} (hd : c.isDigit = true) : c ≠ 'f' := by
  rintro rfl; exact absurd hd (by decide)

theorem isDigit_ne_quote {c : Char} (hd : c.isDigit = true) : c ≠ '\x22' := by
  rintro rfl; exact absurd hd (by decide)

theorem isDigit_ne_lbracket {c : Char} (hd : c.isDigit = true) : c ≠ '[' := by
  rintro rfl; exact absurd hd (by decide)

theorem isDigit_ne_lbrace {c : Char} (hd : c.isDigit = true) : c ≠ '\x7b' := by
  rintro rfl; exact absurd hd (by decide)

theorem isDigit_ne_minus {c : Char} (hd : c.isDigit = true) : c ≠ '-' := by
  rintro rfl; exact absurd hd (by decide)

theorem sepHead_noDigitHead {rest : List Char} (h : sepHead rest) :
    noDigitHead rest := by
  cases rest with
  | nil => trivial
  | cons c cs =>
    simp only [sepHead] at h
    simp only [noDigitHead]
    rcases h with rfl | rfl | rfl <;> decide

theorem takeDigits_append {l rest : List Char} (hl : ∀ c ∈ l, c.isDigit = true)
    (hr : noDigitHead rest) : takeDigits (l ++ rest) = (l, rest) := by
  induction l with
  | nil =>
    cases rest with
    | nil => rfl
    | cons c cs =>
      simp only [noDigitHead] at hr
      simp [takeDigits, hr]
  | cons c l ih =>
    have hc : c.isDigit = true := hl c (List.mem_cons_self c l)
    have ih' := ih (fun x hx => hl x (List.mem_cons_of_mem c hx))
    simp [takeDigits, hc, ih']

theorem lexFrac_sep {rest : List Char} (h : sepHead rest) :
    lexFrac rest = some ([], rest) := by
  cases rest with
  | nil => rfl
  | cons c cs =>
    simp only [sepHead] at h
    rcases h with rfl | rfl | rfl <;> rfl

theorem lexExp_sep {rest : List Char} (h : sepHead rest) :
    lexExp rest = some ([], rest) := by
  cases rest with
  | nil => rfl
  | cons c cs =>
    simp only [sepHead] at h
    rcases h with rfl | rfl | rfl <;> rfl

theorem lexNumber_digits {c : Char} {cs rest : List Char}
    (hd : ∀ x ∈ c :: cs, x.isDigit = true)
    (hz : c = '0' → cs = [])
    (hs : sepHead rest) :
    lexNumber (c :: (cs ++ rest)) = some (c :: cs, rest) := by
  have hc : c.isDigit = true := hd c (List.mem_cons_self c cs)
  have hint : lexIntPart (c :: (cs ++ rest)) = some (c :: cs, rest) := by
    by_cases h0 : c = '0'
    · subst h0
      have : cs = [] := hz rfl
      subst this
      simp [lexIntPart]
    · have htd : takeDigits (cs ++ rest) = (cs, rest) :=
        takeDigits_append (fun x hx => hd x (List.mem_cons_of_mem c hx))
          (sepHead_noDigitHead hs)
      simp [lexIntPart, h0, hc, htd]
  simp [lexNumber, isDigit_ne_minus hc, hint, lexFrac_sep hs, lexExp_sep hs]

/-! ## Lemmas: string-literal round trip -/

theorem hexVal_hexDigitChar : ∀ k < 16, hexVal? (hexDigitChar k) = some k := by
  decide

theorem parseStrAux_enc (l : List Char) : ∀ (acc rest : List Char),
    parseStrAux acc (encStrL l ++ '\x22' :: rest) = .ok (⟨acc.reverse ++ l⟩, rest) := by
  induction l with
  | nil =>
    intro acc rest
    rw [show encStrL [] ++ '\x22' :: rest = '\x22' :: rest from rfl, parseStrAux.eq_def]
    simp
  | cons c l ih =>
    intro acc rest
    simp only [encStrL, List.append_assoc]
    unfold encChar
    split_ifs with h1 h2 h3 h4 h5 h6 h7 h8
    · subst h1
      rw [show (['\\', '\x22'] : List Char) ++ (encStrL l ++ '\x22' :: rest) =
        '\\' :: '\x22' :: (encStrL l ++ '\x22' :: rest) from rfl, parseStrAux.eq_def]
      simpa [List.append_assoc] using ih ('\x22' :: acc) rest
    · subst h2
      rw [show (['\\', '\\'] : List Char) ++ (encStrL l ++ '\x22' :: rest) =
        '\\' :: '\\' :: (encStrL l ++ '\x22' :: rest) from rfl, parseStrAux.eq_def]
      simpa [List.append_assoc] using ih ('\\' :: acc) rest
    · subst h3
      rw [show (['\\', 'b'] : List Char) ++ (encStrL l ++ '\x22' :: rest) =
        '\\' :: 'b' :: (encStrL l ++ '\x22' :: rest) from rfl, parseStrAux.eq_def]
      simpa [List.append_assoc] using ih ('\x08' :: acc) rest
    · subst h4
      rw [show (['\\', 'f'] : List Char) ++ (encStrL l ++ '\x22' :: rest) =
        '\\' :: 'f' :: (encStrL l ++ '\x22' :: rest) from rfl, parseStrAux.eq_def]
      simpa [List.append_assoc] using ih ('\x0c' :: acc) rest
    · subst h5
      rw [show (['\\', 'n'] : List Char) ++ (encStrL l ++ '\x22' :: rest) =
        '\\' :: 'n' :: (encStrL l ++ '\x22' :: rest) from rfl, parseStrAux.eq_def]
      simpa [List.append_assoc] using ih ('\n' :: acc) rest
    · subst h6
      rw [show (['\\', 'r'] : List Char) ++ (encStrL l ++ '\x22' :: rest) =
        '\\' :: 'r' :: (encStrL l ++ '\x22' :: rest) from rfl, parseStrAux.eq_def]
      simpa [List.append_assoc] using ih ('\x0d' :: acc) rest
    · subst h7
      rw [show (['\\', 't'] : List Char) ++ (encStrL l ++ '\x22' :: rest) =
        '\\' :: 't' :: (encStrL l ++ '\x22' :: rest) from rfl, parseStrAux.eq_def]
      simpa [List.append_assoc] using ih ('\x09' :: acc) rest
    · -- low control character, escaped as a unicode escape
      have hq : c.toNat / 16 < 16 := by omega
      have hr : c.toNat % 16 < 16 := Nat.mod_lt _ (by omega)
      have e1 := hexVal_hexDigitChar _ hq
      have e2 := hexVal_hexDigitChar _ hr
      have e0 : hexVal? '0' = some 0 := by decide
      rw [show ('\\' :: 'u' :: '0' :: '0' :: hexDigitChar (c.toNat / 16) ::
          hexDigitChar (c.toNat % 16) :: []) ++ (encStrL l ++ '\x22' :: rest) =
        '\\' :: 'u' :: '0' :: '0' :: hexDigitChar (c.toNat / 16) ::
          hexDigitChar (c.toNat % 16) :: (encStrL l ++ '\x22' :: rest) from rfl,
        parseStrAux.eq_def]
      simpa [e0, e1, e2, Nat.div_add_mod, Nat.div_add_mod', Nat.mod_add_div,
        Nat.mod_add_div', Char.ofNat_toNat, List.append_assoc] using ih (c :: acc) rest
    · -- plain character
      rw [show ([c] : List Char) ++ (encStrL l ++ '\x22' :: rest) =
        c :: (encStrL l ++ '\x22' :: rest) from rfl, parseStrAux.eq_def]
      simp only [if_neg h1, if_neg h2, if_neg h8]
      simpa [List.append_assoc] using ih (c :: acc) rest

/-! ## Lemmas: parser completeness on serialized values -/

theorem encJson_valueStart (j : Json) (hwf : Json.wf j = true) :
    ∃ c cs, encJson j = c :: cs ∧ valueStart c := by
  cases j with
  | null => exact ⟨'n', ['u', 'l', 'l'], rfl, Or.inl rfl⟩
  | bool b =>
    cases b with
    | true => exact ⟨'t', ['r', 'u', 'e'], rfl, Or.inr (Or.inl rfl)⟩
    | false => exact ⟨'f', ['a', 'l', 's', 'e'], rfl, Or.inr (Or.inr (Or.inl rfl))⟩
  | num lx =>
    simp only [Json.wf] at hwf
    unfold natLexOK at hwf
    rcases hl : lx.toList with _ | ⟨c, cs⟩
    · rw [hl] at hwf; exact absurd hwf (by simp)
    · rw [hl] at hwf
      simp only [List.all_cons, Bool.and_eq_true] at hwf
      refine ⟨c, cs, ?_, ?_⟩
      · simpa [encJson, String.toList] using hl
      · exact Or.inr (Or.inr (Or.inr (Or.inr (Or.inr (Or.inr hwf.1.1)))))
  | str s =>
    exact ⟨'\x22', encStrL s.toList ++ ['\x22'], rfl, Or.inr (Or.inr (Or.inr (Or.inl rfl)))⟩
  | arr es =>
    exact ⟨'[', encElems es ++ [']'], rfl, Or.inr (Or.inr (Or.inr (Or.inr (Or.inl rfl))))⟩
  | obj fs =>
    exact ⟨'\x7b', encFields fs ++ ['\x7d'], rfl,
      Or.inr (Or.inr (Or.inr (Or.inr (Or.inr (Or.inl rfl)))))⟩

theorem sepHead_elemsTail (t : JsonList) (rest : List Char) :
    sepHead (encElemsTail t ++ (']' :: rest)) := by
  cases t with
  | nil => simp [encElemsTail, sepHead]
  | cons h2 t2 => simp [encElemsTail, sepHead]

theorem sepHead_fieldsTail (t : JsonFields) (rest : List Char) :
    sepHead (encFieldsTail t ++ ('\x7d' :: rest)) := by
  cases t with
  | nil => simp [encFieldsTail, sepHead]
  | fcons k2 v2 t2 => simp [encFieldsTail, sepHead]

mutual

theorem parseValue_enc : ∀ (j : Json) (fuel : Nat) (rest : List Char),
    Json.wf j = true → Json.fuelNeed j ≤ fuel → sepHead rest →
    parseValue fuel (encJson j ++ rest) = .ok (j, rest)
  | .null, fuel, rest => fun _ hf _ => by
    cases fuel with
    | zero => exact absurd hf (by simp only [Json.fuelNeed]; omega)
    | succ f =>
      rw [show encJson .null ++ rest = 'n' :: 'u' :: 'l' :: 'l' :: rest from rfl,
        parseValue.eq_def]
      simp [skipWs]
  | .bool true, fuel, rest => fun _ hf _ => by
    cases fuel with
    | zero => exact absurd hf (by simp only [Json.fuelNeed]; omega)
    | succ f =>
      rw [show encJson (.bool true) ++ rest = 't' :: 'r' :: 'u' :: 'e' :: rest from rfl,
        parseValue.eq_def]
      simp [skipWs]
  | .bool false, fuel, rest => fun _ hf _ => by
    cases fuel with
    | zero => exact absurd hf (by simp only [Json.fuelNeed]; omega)
    | succ f =>
      rw [show encJson (.bool false) ++ rest = 'f' :: 'a' :: 'l' :: 's' :: 'e' :: rest from rfl,
        parseValue.eq_def]
      simp [skipWs]
  | .num lx, fuel, rest => fun hwf hf hs => by
    cases fuel with
    | zero => exact absurd hf (by simp only [Json.fuelNeed]; omega)
    | succ f =>
      simp only [Json.wf] at hwf
      unfold natLexOK at hwf
      rcases hl : lx.toList with _ | ⟨c, cs⟩
      · rw [hl] at hwf; exact absurd hwf (by simp)
      · rw [hl] at hwf
        simp only [List.all_cons, List.all_eq_true, Bool.and_eq_true, Bool.or_eq_true,
          decide_eq_true_eq, List.isEmpty_iff] at hwf
        have hd : ∀ x ∈ c :: cs, x.isDigit = true := by
          intro x hx
          rcases List.mem_cons.mp hx with rfl | hx'
          · exact hwf.1.1
          · exact hwf.1.2 x hx'
        have hz : c = '0' → cs = [] := by
          intro h0
          rcases hwf.2 with h | h
          · exact absurd h0 h
          · exact h
        have hc : c.isDigit = true := hd c (List.mem_cons_self c cs)
        have hlex := lexNumber_digits hd hz hs
        have hdata : lx.data = c :: cs := by simpa [String.toList] using hl
        have hmk : (⟨c :: cs⟩ : String) = lx := by
          cases lx with
          | mk d => simp only at hdata; rw [hdata]
        have hsw : skipWs (c :: (cs ++ rest)) = c :: (cs ++ rest) :=
          skipWs_cons_of_not_ws _ (isDigit_not_ws hc)
        rw [show encJson (.num lx) ++ rest = c :: (cs ++ rest) from by
            simp [encJson, String.toList, hdata],
          parseValue.eq_def]
        simp [hsw, isDigit_ne_n hc, isDigit_ne_t hc, isDigit_ne_f hc, isDigit_ne_quote hc,
          isDigit_ne_lbracket hc, isDigit_ne_lbrace hc, hc, hlex, hmk]
  | .str s, fuel, rest => fun _ hf _ => by
    cases fuel with
    | zero => exact absurd hf (by simp only [Json.fuelNeed]; omega)
    | succ f =>
      have hps := parseStrAux_enc s.data [] (rest)
      have hmk : (⟨s.data⟩ : String) = s := rfl
      rw [show encJson (.str s) ++ rest = '\x22' :: (encStrL s.data ++ '\x22' :: rest)
          from by simp [encJson, String.toList],
        parseValue.eq_def]
      simp [skipWs, hps, hmk]
  | .arr .nil, fuel, rest => fun _ hf _ => by
    cases fuel with
    | zero => exact absurd hf (by simp only [Json.fuelNeed]; omega)
    | succ f =>
      rw [show encJson (.arr .nil) ++ rest = '[' :: ']' :: rest from rfl, parseValue.eq_def]
      simp [skipWs]
  | .arr (.cons h t), fuel, rest => fun hwf hf hs => by
    cases fuel with
    | zero => exact absurd hf (by simp only [Json.fuelNeed]; omega)
    | succ f =>
      have hw : Json.wf h = true ∧ JsonList.wf t = true := by
        have h2 := hwf
        simp [Json.wf, JsonList.wf] at h2
        exact h2
      have hwl : JsonList.wf (.cons h t) = true := by
        have h2 := hwf
        simp only [Json.wf] at h2
        exact h2
      have hfl : JsonList.fuelNeed (.cons h t) ≤ f := by
        simp only [Json.fuelNeed] at hf; omega
      have hrec := parseElems_enc (.cons h t) f rest hwl hfl hs (by simp)
      obtain ⟨c0, cs0, henc, hvs⟩ := encJson_valueStart h hw.1
      have hne : c0 ≠ ']' := valueStart_ne_rbracket hvs
      have hel : encElems (.cons h t) = c0 :: (cs0 ++ encElemsTail t) := by
        simp [encElems, henc]
      have hshape : encJson (.arr (.cons h t)) ++ rest
          = '[' :: (encElems (.cons h t) ++ (']' :: rest)) := by
        simp [encJson, List.append_assoc]
      have hs2 : skipWs (encElems (.cons h t) ++ (']' :: rest))
          = encElems (.cons h t) ++ (']' :: rest) := by
        rw [hel]
        simp only [List.cons_append]
        exact skipWs_cons_of_not_ws _ (valueStart_not_ws hvs)
      have hhd : (encElems (.cons h t) ++ (']' :: rest)).head? = some c0 := by
        rw [hel]; simp
      have hsw0 : skipWs ('[' :: (encElems (.cons h t) ++ (']' :: rest)))
          = '[' :: (encElems (.cons h t) ++ (']' :: rest)) :=
        skipWs_cons_of_not_ws _ (by decide)
      rw [hshape, parseValue.eq_def]
      simp [hsw0, hs2, hhd, hne, hrec]
  | .obj .nil, fuel, rest => fun _ hf _ => by
    cases fuel with
    | zero => exact absurd hf (by simp only [Json.fuelNeed]; omega)
    | succ f =>
      rw [show encJson (.obj .nil) ++ rest = '\x7b' :: '\x7d' :: rest from rfl,
        parseValue.eq_def]
      simp [skipWs]
  | .obj (.fcons k v t), fuel, rest => fun hwf hf hs => by
    cases fuel with
    | zero => exact absurd hf (by simp only [Json.fuelNeed]; omega)
    | succ f =>
      have hwl : JsonFields.wf (.fcons k v t) = true := by
        have h2 := hwf
        simp only [Json.wf] at h2
        exact h2
      have hfl : JsonFields.fuelNeed (.fcons k v t) ≤ f := by
        simp only [Json.fuelNeed] at hf; omega
      have hrec := parseMembers_enc (.fcons k v t) f rest hwl hfl hs (by simp)
      have hshape : encJson (.obj (.fcons k v t)) ++ rest
          = '\x7b' :: (encFields (.fcons k v t) ++ ('\x7d' :: rest)) := by
        simp [encJson, List.append_assoc]
      have hfs : encFields (.fcons k v t)
          = '\x22' :: (encStrL k.data ++ '\x22' :: ':' :: encJson v ++ encFieldsTail t) := by
        simp [encFields, String.toList, List.append_assoc]
      have hs2 : skipWs (encFields (.fcons k v t) ++ ('\x7d' :: rest))
          = encFields (.fcons k v t) ++ ('\x7d' :: rest) := by
        rw [hfs]
        simp only [List.cons_append]
        exact skipWs_cons_of_not_ws _ (by decide)
      have hhd : (encFields (.fcons k v t) ++ ('\x7d' :: rest)).head? = some '\x22' := by
        rw [hfs]; simp
      have hsw0 : skipWs ('\x7b' :: (encFields (.fcons k v t) ++ ('\x7d' :: rest)))
          = '\x7b' :: (encFields (.fcons k v t) ++ ('\x7d' :: rest)) :=
        skipWs_cons_of_not_ws _ (by decide)
      rw [hshape, parseValue.eq_def]
      simp [hsw0, hs2, hhd, hrec]

theorem parseElems_enc : ∀ (es : JsonList) (fuel : Nat) (rest : List Char),
    JsonList.wf es = true → JsonList.fuelNeed es ≤ fuel → sepHead rest → es ≠ .nil →
    parseElems fuel (encElems es ++ (']' :: rest)) = .ok (es, rest)
  | .nil, _, _ => fun _ _ _ hne => absurd rfl hne
  | .cons h t, fuel, rest => fun hwf hf hs _ => by
    cases fuel with
    | zero => exact absurd hf (by simp only [JsonList.fuelNeed]; omega)
    | succ f =>
      have hw : Json.wf h = true ∧ JsonList.wf t = true := by
        have h2 := hwf
        simp [JsonList.wf] at h2
        exact h2
      have hfh : Json.fuelNeed h ≤ f := by
        simp only [JsonList.fuelNeed] at hf; omega
      have hft : JsonList.fuelNeed t ≤ f := by
        simp only [JsonList.fuelNeed] at hf; omega
      cases t with
      | nil =>
        have hpv := parseValue_enc h f (']' :: rest) hw.1 hfh (by simp [sepHead])
        rw [show encElems (.cons h .nil) ++ (']' :: rest) = encJson h ++ (']' :: rest) from by
            simp [encElems, encElemsTail],
          parseElems.eq_def]
        simp [hpv, skipWs]
      | cons h2 t2 =>
        have hpv := parseValue_enc h f (',' :: (encElems (.cons h2 t2) ++ (']' :: rest)))
          hw.1 hfh (by simp [sepHead])
        have hrec := parseElems_enc (.cons h2 t2) f rest hw.2 hft hs (by simp)
        rw [show encElems (.cons h (.cons h2 t2)) ++ (']' :: rest)
            = encJson h ++ (',' :: (encElems (.cons h2 t2) ++ (']' :: rest))) from by
            simp [encElems, encElemsTail, List.append_assoc],
          parseElems.eq_def]
        simp [hpv, skipWs, hrec]

theorem parseMembers_enc : ∀ (fs : JsonFields) (fuel : Nat) (rest : List Char),
    JsonFields.wf fs = true → JsonFields.fuelNeed fs ≤ fuel → sepHead rest → fs ≠ .nil →
    parseMembers fuel (encFields fs ++ ('\x7d' :: rest)) = .ok (fs, rest)
  | .nil, _, _ => fun _ _ _ hne => absurd rfl hne
  | .fcons k v t, fuel, rest => fun hwf hf hs _ => by
    cases fuel with
    | zero => exact absurd hf (by simp only [JsonFields.fuelNeed]; omega)
    | succ f =>
      have hw : Json.wf v = true ∧ JsonFields.wf t = true := by
        have h2 := hwf
        simp [JsonFields.wf] at h2
        exact h2
      have hfv : Json.fuelNeed v ≤ f := by
        simp only [JsonFields.fuelNeed] at hf; omega
      have hft : JsonFields.fuelNeed t ≤ f := by
        simp only [JsonFields.fuelNeed] at hf; omega
      have hmk : (⟨k.data⟩ : String) = k := rfl
      cases t with
      | nil =>
        have hpv := parseValue_enc v f ('\x7d' :: rest) hw.1 hfv (by simp [sepHead])
        have hps := parseStrAux_enc k.data [] (':' :: (encJson v ++ ('\x7d' :: rest)))
        rw [show encFields (.fcons k v .nil) ++ ('\x7d' :: rest)
            = '\x22' :: (encStrL k.data
                ++ '\x22' :: (':' :: (encJson v ++ ('\x7d' :: rest)))) from by
            simp [encFields, encFieldsTail, String.toList, List.append_assoc],
          parseMembers.eq_def]
        simp [skipWs, hps, hmk, hpv]
      | fcons k2 v2 t2 =>
        have hpv := parseValue_enc v f
          (',' :: (encFields (.fcons k2 v2 t2) ++ ('\x7d' :: rest)))
          hw.1 hfv (by simp [sepHead])
        have hps := parseStrAux_enc k.data []
          (':' :: (encJson v ++ (',' :: (encFields (.fcons k2 v2 t2) ++ ('\x7d' :: rest)))))
        have hrec := parseMembers_enc (.fcons k2 v2 t2) f rest hw.2 hft hs (by simp)
        rw [show encFields (.fcons k v (.fcons k2 v2 t2)) ++ ('\x7d' :: rest)
            = '\x22' :: (encStrL k.data ++ '\x22' :: (':' :: (encJson v
                ++ (',' :: (encFields (.fcons k2 v2 t2) ++ ('\x7d' :: rest)))))) from by
            simp [encFields, encFieldsTail, String.toList, List.append_assoc],
          parseMembers.eq_def]
        simp [skipWs, hps, hmk, hpv, hrec]

end

mutual

theorem fuelNeed_le_enc : ∀ (j : Json), Json.wf j = true →
    Json.fuelNeed j ≤ (encJson j).length
  | .null, _ => by simp [Json.fuelNeed, encJson]
  | .bool b, _ => by cases b <;> simp [Json.fuelNeed, encJson]
  | .num lx, hwf => by
    simp only [Json.wf] at hwf
    unfold natLexOK at hwf
    rcases hl : lx.toList with _ | ⟨c, cs⟩
    · rw [hl] at hwf; exact absurd hwf (by simp)
    · have hdata : lx.data = c :: cs := by simpa [String.toList] using hl
      have hlen : (encJson (.num lx)).length = cs.length + 1 := by
        simp [encJson, String.toList, hdata]
      simp [Json.fuelNeed, hlen]
  | .str s, _ => by simp [Json.fuelNeed, encJson]
  | .arr es, hwf => by
    have h2 := fuelNeedL_le_encTail es (by simpa [Json.wf] using hwf)
    simp only [Json.fuelNeed, encJson]
    have hl := encElemsTail_le_encElems es
    simp only [List.length_cons, List.length_append]
    omega
  | .obj fs, hwf => by
    have h2 := fuelNeedF_le_encTail fs (by simpa [Json.wf] using hwf)
    simp only [Json.fuelNeed, encJson]
    have hl := encFieldsTail_le_encFields fs
    simp only [List.length_cons, List.length_append]
    omega

theorem fuelNeedL_le_encTail : ∀ (es : JsonList), JsonList.wf es = true →
    JsonList.fuelNeed es ≤ (encElemsTail es).length
  | .nil, _ => by simp [JsonList.fuelNeed, encElemsTail]
  | .cons h t, hwf => by
    have hw : Json.wf h = true ∧ JsonList.wf t = true := by
      have h2 := hwf
      simp [JsonList.wf] at h2
      exact h2
    have h1 := fuelNeed_le_enc h hw.1
    have h2 := fuelNeedL_le_encTail t hw.2
    simp only [JsonList.fuelNeed, encElemsTail, List.length_cons, List.length_append]
    omega

theorem fuelNeedF_le_encTail : ∀ (fs : JsonFields), JsonFields.wf fs = true →
    JsonFields.fuelNeed fs ≤ (encFieldsTail fs).length
  | .nil, _ => by simp [JsonFields.fuelNeed, encFieldsTail]
  | .fcons k v t, hwf => by
    have hw : Json.wf v = true ∧ JsonFields.wf t = true := by
      have h2 := hwf
      simp [JsonFields.wf] at h2
      exact h2
    have h1 := fuelNeed_le_enc v hw.1
    have h2 := fuelNeedF_le_encTail t hw.2
    simp only [JsonFields.fuelNeed, encFieldsTail, List.length_cons, List.length_append]
    omega

theorem encElemsTail_le_encElems : ∀ (es : JsonList),
    (encElemsTail es).length ≤ (encElems es).length + 1
  | .nil => by simp [encElemsTail, encElems]
  | .cons h t => by
    simp only [encElemsTail, encElems, List.length_cons, List.length_append]
    omega

theorem encFieldsTail_le_encFields : ∀ (fs : JsonFields),
    (encFieldsTail fs).length ≤ (encFields fs).length + 1
  | .nil => by simp [encFieldsTail, encFields]
  | .fcons k v t => by
    simp only [encFieldsTail, encFields, List.length_cons, List.length_append]
    omega

end

/-- Completeness of the `JSON.parse` model for the serializer: parsing a
serialized well-formed value returns the value. -/
theorem parseTextL_enc (j : Json) (h : Json.wf j = true) :
    parseTextL (encJson j) = .ok j := by
  have hb : Json.fuelNeed j ≤ (encJson j).length + 1 :=
    le_trans (fuelNeed_le_enc j h) (Nat.le_succ _)
  have hpv := parseValue_enc j ((encJson j).length + 1) [] h hb trivial
  rw [List.append_nil] at hpv
  unfold parseTextL
  rw [hpv]
  simp [skipWs]

/-- The string-level round trip. -/
theorem jsonParse_serialize (j : Json) (h : Json.wf j = true) :
    jsonParse (Json.serialize j) = .ok j := by
  unfold jsonParse Json.serialize
  exact parseTextL_enc j h

/-! ## Lemmas: index arithmetic of the extraction window -/

theorem firstIdx_append_cons {c : Char} (tl : List Char) :
    ∀ (pre : List Char), c ∉ pre → firstIdx c (pre ++ c :: tl) = some pre.length := by
  intro pre
  induction pre with
  | nil => intro _; simp [firstIdx]
  | cons a as ih =>
    intro hmem
    have hac : ¬(a = c) := by
      intro h; exact hmem (by simp [h])
    have h2 := ih (fun h => hmem (List.mem_cons_of_mem a h))
    simp [firstIdx, hac, h2]

theorem lastIdx_eq_none_of_not_mem {c : Char} :
    ∀ (l : List Char), c ∉ l → lastIdx c l = none := by
  intro l
  induction l with
  | nil => intro _; rfl
  | cons a as ih =>
    intro hmem
    have hac : ¬(a = c) := by
      intro h; exact hmem (by simp [h])
    have h2 := ih (fun h => hmem (List.mem_cons_of_mem a h))
    simp [lastIdx, h2, hac]

theorem lastIdx_append_of_none {c : Char} {ys : List Char} (h : lastIdx c ys = none) :
    ∀ (xs : List Char), lastIdx c (xs ++ ys) = lastIdx c xs := by
  intro xs
  induction xs with
  | nil => simp [h, lastIdx]
  | cons a as ih => simp only [List.cons_append, lastIdx, List.append_eq, ih]

theorem lastIdx_append_of_some {c : Char} {ys : List Char} {i : Nat}
    (h : lastIdx c ys = some i) :
    ∀ (xs : List Char), lastIdx c (xs ++ ys) = some (xs.length + i) := by
  intro xs
  induction xs with
  | nil => simpa using h
  | cons a as ih =>
    simp only [List.cons_append, lastIdx, List.append_eq, ih, List.length_cons]
    exact congrArg some (by omega)

theorem lastIdx_cons_self_of_not_mem {c : Char} {ys : List Char} (h : c ∉ ys) :
    lastIdx c (c :: ys) = some 0 := by
  simp [lastIdx, lastIdx_eq_none_of_not_mem ys h]

theorem jsSubstring_exact (pre mid suf : List Char) :
    jsSubstring (pre ++ mid ++ suf) pre.length (pre.length + mid.length) = mid := by
  unfold jsSubstring
  have hmin : min pre.length (pre.length + mid.length) = pre.length := by omega
  have hmax : max pre.length (pre.length + mid.length) = pre.length + mid.length := by omega
  rw [hmin, hmax]
  have htake : (pre ++ mid ++ suf).take (pre.length + mid.length) = pre ++ mid := by
    have h1 : pre.length + mid.length = (pre ++ mid).length := by simp
    rw [show pre ++ mid ++ suf = (pre ++ mid) ++ suf from by simp, h1]
    exact List.take_left (pre ++ mid) suf
  rw [htake]
  exact List.drop_left pre mid

/-- The central embedding fact: a serialized well-formed JSON object
embedded between a prefix without an opening brace and a suffix without
a closing brace is extracted and parsed back exactly. -/
theorem extract_embed (fs : JsonFields) (pre suf : String)
    (hwf : Json.wf (.obj fs) = true)
    (hpre : '\x7b' ∉ pre.toList) (hsuf : '\x7d' ∉ suf.toList) :
    extract (pre ++ Json.serialize (.obj fs) ++ suf) = .ok (.obj fs) := by
  have henc : encJson (.obj fs) = ('\x7b' :: encFields fs) ++ ['\x7d'] := by
    simp [encJson]
  have hlist : (pre ++ Json.serialize (.obj fs) ++ suf).toList
      = pre.toList ++ encJson (.obj fs) ++ suf.toList := by
    simp [Json.serialize, String.toList]
  have hfst : firstIdx '\x7b' (pre.toList ++ encJson (.obj fs) ++ suf.toList)
      = some pre.toList.length := by
    rw [show pre.toList ++ encJson (.obj fs) ++ suf.toList
        = pre.toList ++ '\x7b' :: (encFields fs ++ ['\x7d'] ++ suf.toList) from by
        rw [henc]; simp]
    exact firstIdx_append_cons _ pre.toList hpre
  have hlst : lastIdx '\x7d' (pre.toList ++ encJson (.obj fs) ++ suf.toList)
      = some ((pre.toList ++ '\x7b' :: encFields fs).length + 0) := by
    rw [show pre.toList ++ encJson (.obj fs) ++ suf.toList
        = (pre.toList ++ '\x7b' :: encFields fs) ++ ('\x7d' :: suf.toList) from by
        rw [henc]; simp]
    exact lastIdx_append_of_some (lastIdx_cons_self_of_not_mem hsuf) _
  have hidx : (pre.toList ++ '\x7b' :: encFields fs).length + 0 + 1
      = pre.toList.length + (encJson (.obj fs)).length := by
    rw [henc]; simp; omega
  have hsub : jsSubstring (pre.toList ++ encJson (.obj fs) ++ suf.toList)
      pre.toList.length (pre.toList.length + (encJson (.obj fs)).length)
      = encJson (.obj fs) := jsSubstring_exact _ _ _
  unfold extract
  rw [hlist, hfst, hlst]
  simp only [hidx, hsub]
  rw [parseTextL_enc _ hwf]

/-! ## Lemmas: well-formedness of serialized results -/

theorem natLexOK_toString {n : Nat} (h1 : 1 ≤ n) (h5 : n ≤ 5) :
    natLexOK (toString n) = true := by
  interval_cases n <;> decide

theorem scoresToFields_wf (l : List (String × ScoreCriterion))
    (h : ∀ p ∈ l, 1 ≤ p.2.score ∧ p.2.score ≤ 5) :
    JsonFields.wf (scoresToFields l) = true := by
  induction l with
  | nil => simp [scoresToFields, JsonFields.wf]
  | cons p rest ih =>
    obtain ⟨name, sc⟩ := p
    have hp := h _ (List.mem_cons_self _ _)
    have ih' := ih (fun q hq => h q (List.mem_cons_of_mem _ hq))
    simp [scoresToFields, JsonFields.wf, Json.wf, scoreToJson,
      natLexOK_toString hp.1 hp.2, ih']

theorem summaryToJson_wf (x : SummaryResult) (hv : x.Valid) :
    Json.wf x.toJson = true := by
  simp [SummaryResult.toJson, Json.wf, JsonFields.wf,
    scoresToFields_wf x.scores hv.2]

/-! ## Lemmas: substring containment in the prompt templates -/

theorem strHasP_self (s : String) : strHasP s s :=
  ⟨"", "", by simp⟩

theorem strHasP_appendL (t : String) {s pat : String} (h : strHasP s pat) :
    strHasP (t ++ s) pat := by
  obtain ⟨u, v, huv⟩ := h
  exact ⟨t ++ u, v, by rw [huv]; simp [String.append_assoc]⟩

theorem strHasP_appendR (t : String) {s pat : String} (h : strHasP s pat) :
    strHasP (s ++ t) pat := by
  obtain ⟨u, v, huv⟩ := h
  exact ⟨u, v ++ t, by rw [huv]; simp [String.append_assoc]⟩

theorem strHasP_trans {s t pat : String} (hst : strHasP s t) (htp : strHasP t pat) :
    strHasP s pat := by
  obtain ⟨u, v, huv⟩ := hst
  obtain ⟨a, b, hab⟩ := htp
  exact ⟨u ++ a, b ++ v, by rw [huv, hab]; simp [String.append_assoc]⟩

theorem critLine_has (name : String) : strHasP (critLine name) name := by
  unfold critLine
  exact strHasP_appendR _ (strHasP_appendL _ (strHasP_self name))

theorem schemaBlockB_has_criteria :
    ∀ name ∈ criteriaNames, strHasP schemaBlockB (critLine name) := by
  intro name hname
  simp only [criteriaNames, List.mem_cons, List.not_mem_nil, or_false] at hname
  unfold schemaBlockB
  rcases hname with rfl | rfl | rfl | rfl | rfl | rfl | rfl <;>
    repeat
      first
      | exact strHasP_appendL _ (strHasP_self _)
      | exact strHasP_appendL _ (strHasP_appendR _ (strHasP_self _))
      | apply strHasP_appendR

theorem promptPreB_has_holistic : strHasP promptPreB holisticLineB := by
  unfold promptPreB
  repeat
    first
    | exact strHasP_appendL _ (strHasP_self _)
    | apply strHasP_appendR

theorem promptPreB_has_scale : strHasP promptPreB scaleLineB := by
  unfold promptPreB
  repeat
    first
    | exact strHasP_appendL _ (strHasP_self _)
    | apply strHasP_appendR

theorem promptPreB_has_neutralRule : strHasP promptPreB neutralRuleLineB := by
  unfold promptPreB
  repeat
    first
    | exact strHasP_appendL _ (strHasP_self _)
    | apply strHasP_appendR

theorem promptPreB_has_schemaBlock : strHasP promptPreB schemaBlockB := by
  unfold promptPreB
  repeat
    first
    | exact strHasP_appendL _ (strHasP_self _)
    | apply strHasP_appendR

/-! ## The claims -/

/-- Claim C1 (amended): for every raw model output text, extract fails
with noJsonFound exactly when the text lacks an opening or a closing
brace; and when the first opening brace is at or before the last closing
brace, extract parses the substring from the first opening brace to the
last closing brace inclusive, failing with malformedJson carrying the
parser error exactly when that substring is not valid JSON and returning
the parsed value otherwise.  (The amendment restricts the substring
clause to the case where the first opening brace precedes the last
closing brace; see the counterexample for the inverted case.) -/
theorem c1_extract_spec (raw : String) :
    ((firstIdx '\x7b' raw.toList = none ∨ lastIdx '\x7d' raw.toList = none) →
      extract raw = .error .noJsonFound) ∧
    (∀ si ei, firstIdx '\x7b' raw.toList = some si →
      lastIdx '\x7d' raw.toList = some ei → si ≤ ei →
      extract raw =
        match parseTextL ((raw.toList.take (ei + 1)).drop si) with
        | .ok j => .ok j
        | .error e => .error (.malformedJson e)) := by
  constructor
  · intro h
    rcases h with h | h
    · have h' : firstIdx '\x7b' raw.data = none := h
      cases hl : lastIdx '\x7d' raw.data <;> simp [extract, h', hl]
    · have h' : lastIdx '\x7d' raw.data = none := h
      cases hf : firstIdx '\x7b' raw.data <;> simp [extract, hf, h']
  · intro si ei hsi hei hle
    have hsi' : firstIdx '\x7b' raw.data = some si := hsi
    have hei' : lastIdx '\x7d' raw.data = some ei := hei
    have hsub : jsSubstring raw.data si (ei + 1) = (raw.data.take (ei + 1)).drop si := by
      unfold jsSubstring
      rw [min_eq_left (by omega), max_eq_right (by omega)]
    simp [extract, hsi', hei', hsub]

/-- Witness for C1 at concrete inputs: a text without braces gives
noJsonFound, and a text with an embedded JSON number follows the
parse-the-inclusive-substring rule. -/
theorem c1_extract_spec_witness :
    extract "abc" = .error .noJsonFound ∧
    extract "ab\x7b1\x7dc" =
      (match parseTextL ((("ab\x7b1\x7dc" : String).toList.take (4 + 1)).drop 2) with
        | .ok j => .ok j
        | .error e => .error (.malformedJson e)) :=
  ⟨(c1_extract_spec "abc").1 (Or.inl rfl),
   (c1_extract_spec "ab\x7b1\x7dc").2 2 4 rfl rfl (by omega)⟩

/-- Counterexample to C1 as stated: in the text consisting of a closing
brace, the digit one and an opening brace, both braces are present, the
first opening brace (index 2) is after the last closing brace (index 0),
the substring from the first opening brace to the last closing brace
inclusive is empty and therefore not valid JSON — so the claim mandates
a malformedJson failure — yet extract succeeds, returning the number 1
(JavaScript substring swaps its arguments). -/
theorem c1_counterexample :
    firstIdx '\x7b' ("\x7d1\x7b" : String).toList = some 2 ∧
    lastIdx '\x7d' ("\x7d1\x7b" : String).toList = some 0 ∧
    parseTextL ((("\x7d1\x7b" : String).toList.take (0 + 1)).drop 2) =
      .error "unexpected end of input" ∧
    extract "\x7d1\x7b" = .ok (.num "1") :=
  ⟨rfl, rfl, rfl, rfl⟩

/-- Claim C2: whenever the fetched incident sequence is empty, the
handler responds 200 with the variant's canned empty result (variant A:
empty patterns and suggestions; variant B: empty scores object) and the
AI provider is not called. -/
theorem c2_empty_short_circuit (cfg : VariantConfig) (req : Req) (env : Env)
    (hdr uid : String)
    (hh : req.authHeader = some hdr) (hb : jsStartsWith hdr "Bearer " = true)
    (hv : env.verify (bearerToken hdr) = .ok uid) (ho : uid = req.mentorId)
    (hfetch : env.fetchIncidents req.mentorId req.tutorId = .ok []) :
    handle cfg req env = (⟨200, cfg.emptyBody⟩, ⟨true, true, false, none, none⟩) ∧
    (handle cfg req env).2.aiCalled = false ∧
    cfgA.emptyBody = emptyBodyA ∧ cfgB.emptyBody = emptyBodyB := by
  have hmain : handle cfg req env
      = (⟨200, cfg.emptyBody⟩, ⟨true, true, false, none, none⟩) := by
    simp [handle, hh, hb, hv, ho, hfetch]
  exact ⟨hmain, by rw [hmain], rfl, rfl⟩

/-- Witness for C2 at a concrete request and environment with an empty
store. -/
theorem c2_empty_short_circuit_witness :
    handle cfgB req0 (mkEnv (.ok []) (.ok none))
      = (⟨200, cfgB.emptyBody⟩, ⟨true, true, false, none, none⟩) ∧
    (handle cfgB req0 (mkEnv (.ok []) (.ok none))).2.aiCalled = false ∧
    cfgA.emptyBody = emptyBodyA ∧ cfgB.emptyBody = emptyBodyB :=
  c2_empty_short_circuit cfgB req0 (mkEnv (.ok []) (.ok none)) "Bearer tk" "m1"
    rfl rfl rfl rfl rfl

/-- Claim C3 (amended): for every valid SummaryResult value, its
serialization embedded between a prefix containing no opening brace and
a suffix containing no closing brace is extracted back exactly.  (The
amendment adds the brace conditions on the surrounding text, which the
counterexample shows are necessary; the spec's "arbitrary prefix/suffix
text" fails when the prefix contains an opening brace or the suffix a
closing brace.) -/
theorem c3_round_trip (x : SummaryResult) (pre suf : String) (hv : x.Valid)
    (hpre : '\x7b' ∉ pre.toList) (hsuf : '\x7d' ∉ suf.toList) :
    extract (pre ++ serializeResult x ++ suf) = .ok x.toJson :=
  extract_embed (.fcons "summary" (.str x.summary)
    (.fcons "scores" (.obj (scoresToFields x.scores)) .nil)) pre suf
    (summaryToJson_wf x hv) hpre hsuf

/-- Witness for C3 at a concrete valid result embedded in prose. -/
theorem c3_round_trip_witness :
    sampleResult.Valid ∧
    extract ("Here you go:\n" ++ serializeResult sampleResult ++ "\nThanks")
      = .ok sampleResult.toJson :=
  ⟨⟨rfl, by decide⟩,
   c3_round_trip sampleResult "Here you go:\n" "\nThanks" ⟨rfl, by decide⟩
     (by decide) (by decide)⟩

/-- Counterexample to C3 as stated: for a valid result value and the
one-character prefix consisting of an opening brace (with empty suffix),
extraction fails with malformedJson instead of returning the value — the
prefix's brace becomes the first opening brace of the text, so the
extracted substring is not valid JSON. -/
theorem c3_counterexample :
    sampleResult.Valid ∧
    extract ("\x7b" ++ serializeResult sampleResult ++ "")
      = .error (.malformedJson "expected string key") :=
  ⟨⟨rfl, by decide⟩, rfl⟩

/-- Claim C4: when the verified caller identity differs from the
mentorId path parameter, the handler responds 403 with the
only-your-own-data body, and neither the store nor the AI provider is
contacted, whatever the environment. -/
theorem c4_wrong_owner_403 (cfg : VariantConfig) (req : Req) (env : Env)
    (hdr uid : String)
    (hh : req.authHeader = some hdr) (hb : jsStartsWith hdr "Bearer " = true)
    (hv : env.verify (bearerToken hdr) = .ok uid) (hne : uid ≠ req.mentorId) :
    handle cfg req env = (⟨403, notOwnerBody⟩, ⟨true, false, false, none, none⟩) := by
  simp [handle, hh, hb, hv, hne]

/-- Witness for C4: a caller verified as m1 requesting owner m2's data
receives 403, even though both the store read and the AI call would
throw. -/
theorem c4_wrong_owner_403_witness :
    handle cfgB ⟨some "Bearer tk", "m2", "t1"⟩ (mkEnv (.error ()) (.error ()))
      = (⟨403, notOwnerBody⟩, ⟨true, false, false, none, none⟩) :=
  c4_wrong_owner_403 cfgB ⟨some "Bearer tk", "m2", "t1"⟩
    (mkEnv (.error ()) (.error ())) "Bearer tk" "m1" rfl rfl rfl (by decide)

/-- Claim C5: every failure after authorization — store read throws, AI
call throws, AI returns no text (or empty text), or extraction fails —
produces the generic 500 response whose body is the constant
"Something wrong happened" object, independent of the failure, so no
internal or provider error text reaches the client. -/
theorem c5_generic_failure (cfg : VariantConfig) (req : Req) (env : Env)
    (hdr uid : String)
    (hh : req.authHeader = some hdr) (hb : jsStartsWith hdr "Bearer " = true)
    (hv : env.verify (bearerToken hdr) = .ok uid) (ho : uid = req.mentorId) :
    (env.fetchIncidents req.mentorId req.tutorId = .error () →
      (handle cfg req env).1 = ⟨500, genericFailureBody⟩) ∧
    (∀ i rest, env.fetchIncidents req.mentorId req.tutorId = .ok (i :: rest) →
      env.aiResult = .error () →
      (handle cfg req env).1 = ⟨500, genericFailureBody⟩) ∧
    (∀ i rest, env.fetchIncidents req.mentorId req.tutorId = .ok (i :: rest) →
      env.aiResult = .ok none →
      (handle cfg req env).1 = ⟨500, genericFailureBody⟩) ∧
    (∀ i rest, env.fetchIncidents req.mentorId req.tutorId = .ok (i :: rest) →
      env.aiResult = .ok (some "") →
      (handle cfg req env).1 = ⟨500, genericFailureBody⟩) ∧
    (∀ i rest text e, env.fetchIncidents req.mentorId req.tutorId = .ok (i :: rest) →
      env.aiResult = .ok (some text) → text ≠ "" → extract text = .error e →
      (handle cfg req env).1 = ⟨500, genericFailureBody⟩) := by
  refine ⟨?_, ?_, ?_, ?_, ?_⟩
  · intro hfetch
    simp [handle, hh, hb, hv, ho, hfetch]
  · intro i rest hfetch hai
    simp [handle, hh, hb, hv, ho, hfetch, hai]
  · intro i rest hfetch hai
    simp [handle, hh, hb, hv, ho, hfetch, hai]
  · intro i rest hfetch hai
    simp [handle, hh, hb, hv, ho, hfetch, hai]
  · intro i rest text e hfetch hai hne hex
    simp [handle, hh, hb, hv, ho, hfetch, hai, hne, hex]

/-- Witness for C5: all five failure shapes at concrete environments
produce the generic 500. -/
theorem c5_generic_failure_witness :
    (handle cfgB req0 (mkEnv (.error ()) (.ok none))).1 = ⟨500, genericFailureBody⟩ ∧
    (handle cfgB req0 (mkEnv (.ok [sampleIncident]) (.error ()))).1
      = ⟨500, genericFailureBody⟩ ∧
    (handle cfgB req0 (mkEnv (.ok [sampleIncident]) (.ok none))).1
      = ⟨500, genericFailureBody⟩ ∧
    (handle cfgB req0 (mkEnv (.ok [sampleIncident]) (.ok (some "")))).1
      = ⟨500, genericFailureBody⟩ ∧
    (handle cfgB req0 (mkEnv (.ok [sampleIncident]) (.ok (some "oops")))).1
      = ⟨500, genericFailureBody⟩ :=
  ⟨(c5_generic_failure cfgB req0 (mkEnv (.error ()) (.ok none)) "Bearer tk" "m1"
      rfl rfl rfl rfl).1 rfl,
   (c5_generic_failure cfgB req0 (mkEnv (.ok [sampleIncident]) (.error ())) "Bearer tk" "m1"
      rfl rfl rfl rfl).2.1 sampleIncident [] rfl rfl,
   (c5_generic_failure cfgB req0 (mkEnv (.ok [sampleIncident]) (.ok none)) "Bearer tk" "m1"
      rfl rfl rfl rfl).2.2.1 sampleIncident [] rfl rfl,
   (c5_generic_failure cfgB req0 (mkEnv (.ok [sampleIncident]) (.ok (some ""))) "Bearer tk"
      "m1" rfl rfl rfl rfl).2.2.2.1 sampleIncident [] rfl rfl,
   (c5_generic_failure cfgB req0 (mkEnv (.ok [sampleIncident]) (.ok (some "oops")))
      "Bearer tk" "m1" rfl rfl rfl rfl).2.2.2.2 sampleIncident [] "oops" .noJsonFound
      rfl rfl (by decide) rfl⟩

/-- Claim C6: whenever the first-brace-to-last-brace substring of the AI
text parses as some JSON value, the handler responds 200 with exactly
that value — no required-field check and no score-range check is
performed on it. -/
theorem c6_no_schema_validation (cfg : VariantConfig) (req : Req) (env : Env)
    (hdr uid : String) (i : Incident) (rest : List Incident)
    (text : String) (j : Json) (si ei : Nat)
    (hh : req.authHeader = some hdr) (hb : jsStartsWith hdr "Bearer " = true)
    (hv : env.verify (bearerToken hdr) = .ok uid) (ho : uid = req.mentorId)
    (hfetch : env.fetchIncidents req.mentorId req.tutorId = .ok (i :: rest))
    (hai : env.aiResult = .ok (some text)) (htne : text ≠ "")
    (hsi : firstIdx '\x7b' text.toList = some si)
    (hei : lastIdx '\x7d' text.toList = some ei)
    (hparse : parseTextL (jsSubstring text.toList si (ei + 1)) = .ok j) :
    (handle cfg req env).1 = ⟨200, j⟩ := by
  have hsi' : firstIdx '\x7b' text.data = some si := hsi
  have hei' : lastIdx '\x7d' text.data = some ei := hei
  have hparse' : parseTextL (jsSubstring text.data si (ei + 1)) = .ok j := hparse
  have hex : extract text = .ok j := by simp [extract, hsi', hei', hparse']
  simp [handle, hh, hb, hv, ho, hfetch, hai, htne, hex]

/-- Witness for C6: the AI text wraps an empty JSON object, which does
not conform to the SummaryResult schema, and the handler returns it
unchanged with status 200. -/
theorem c6_no_schema_validation_witness :
    (handle cfgB req0 (mkEnv (.ok [sampleIncident]) (.ok (some "x\x7b\x7dy")))).1
      = ⟨200, .obj .nil⟩ :=
  c6_no_schema_validation cfgB req0 (mkEnv (.ok [sampleIncident]) (.ok (some "x\x7b\x7dy")))
    "Bearer tk" "m1" sampleIncident [] "x\x7b\x7dy" (.obj .nil) 1 2
    rfl rfl rfl rfl rfl rfl (by decide) rfl rfl rfl

/-- Claim C7: a missing Authorization header or one without the Bearer
prefix yields 401 with the verifier never invoked; a Bearer header whose
token fails verification yields 403. -/
theorem c7_auth_statuses (cfg : VariantConfig) (req : Req) (env : Env) :
    (req.authHeader = none →
      handle cfg req env = (⟨401, unauthorizedBody⟩, ⟨false, false, false, none, none⟩)) ∧
    (∀ hdr, req.authHeader = some hdr → jsStartsWith hdr "Bearer " = false →
      handle cfg req env = (⟨401, unauthorizedBody⟩, ⟨false, false, false, none, none⟩)) ∧
    (∀ hdr, req.authHeader = some hdr → jsStartsWith hdr "Bearer " = true →
      env.verify (bearerToken hdr) = .error () →
      handle cfg req env = (⟨403, invalidTokenBody⟩, ⟨true, false, false, none, none⟩)) := by
  refine ⟨fun h => by simp [handle, h], fun hdr hh hb => by simp [handle, hh, hb],
    fun hdr hh hb hv => by simp [handle, hh, hb, hv]⟩

/-- Witness for C7 at the three concrete header shapes. -/
theorem c7_auth_statuses_witness :
    handle cfgB reqNoAuth (mkEnv (.ok []) (.ok none))
      = (⟨401, unauthorizedBody⟩, ⟨false, false, false, none, none⟩) ∧
    handle cfgB reqBadAuth (mkEnv (.ok []) (.ok none))
      = (⟨401, unauthorizedBody⟩, ⟨false, false, false, none, none⟩) ∧
    handle cfgB req0 envVerifyFail
      = (⟨403, invalidTokenBody⟩, ⟨true, false, false, none, none⟩) :=
  ⟨(c7_auth_statuses cfgB reqNoAuth (mkEnv (.ok []) (.ok none))).1 rfl,
   (c7_auth_statuses cfgB reqBadAuth (mkEnv (.ok []) (.ok none))).2.1 "Token tk" rfl rfl,
   (c7_auth_statuses cfgB req0 envVerifyFail).2.2 "Bearer tk" rfl rfl rfl⟩

/-- Claim C8: for every non-empty incident sequence the variant-B prompt
builder renders each incident as its date (ISO string, or the text
"unknown date" when absent) followed by a colon and the description,
joins the rendered incidents with newlines, and splices them into the
fixed template, which mandates holistic analysis and forbids
per-incident summarization, states the 1-5 scale and the neutral-default
rule, and contains the required output schema verbatim, including each
of the seven criteria. -/
theorem c8_prompt_template (incs : List Incident) (hne : incs ≠ []) :
    buildPromptB (incs.map renderIncident)
      = promptPreB ++ String.intercalate "\n" (incs.map renderIncident) ++ "\n" ∧
    (∀ inc : Incident,
      renderIncident inc = (inc.date.getD "unknown date") ++ ": " ++ inc.description) ∧
    cfgB.mkPrompt = buildPromptB ∧
    strHasP promptPreB holisticLineB ∧
    strHasP promptPreB scaleLineB ∧
    strHasP promptPreB neutralRuleLineB ∧
    strHasP promptPreB schemaBlockB ∧
    (∀ name ∈ criteriaNames, strHasP promptPreB name) := by
  refine ⟨rfl, fun _ => rfl, rfl, promptPreB_has_holistic, promptPreB_has_scale,
    promptPreB_has_neutralRule, promptPreB_has_schemaBlock, ?_⟩
  intro name hname
  exact strHasP_trans promptPreB_has_schemaBlock
    (strHasP_trans (schemaBlockB_has_criteria name hname) (critLine_has name))

/-- Witness for C8 at a one-incident list. -/
theorem c8_prompt_template_witness :
    buildPromptB ([sampleIncident].map renderIncident)
      = promptPreB ++ String.intercalate "\n" ([sampleIncident].map renderIncident) ++ "\n" ∧
    renderIncident sampleIncident
      = (sampleIncident.date.getD "unknown date") ++ ": " ++ sampleIncident.description ∧
    strHasP promptPreB neutralRuleLineB :=
  ⟨(c8_prompt_template [sampleIncident] (by simp)).1,
   (c8_prompt_template [sampleIncident] (by simp)).2.1 sampleIncident,
   (c8_prompt_template [sampleIncident] (by simp)).2.2.2.2.2.1⟩

/-- Claim C9 (amended): on every input the two handler variants agree on
the response status, on which collaborators are contacted, and on the
response body except in the empty short-circuit, where each variant
sends its own canned empty body (they differ: patterns/suggestions
versus scores).  The variants differ only in the prompt, the requested
response schema, and that canned empty body. -/
theorem c9_variants_agree (req : Req) (env : Env) :
    (handleA req env).1.status = (handleB req env).1.status ∧
    (handleA req env).2.verifierCalled = (handleB req env).2.verifierCalled ∧
    (handleA req env).2.storeCalled = (handleB req env).2.storeCalled ∧
    (handleA req env).2.aiCalled = (handleB req env).2.aiCalled ∧
    ((handleA req env).1.body = (handleB req env).1.body ∨
      ((handleA req env).1.body = emptyBodyA ∧ (handleB req env).1.body = emptyBodyB)) := by
  obtain ⟨ah, m, t⟩ := req
  cases ah with
  | none => simp [handleA, handleB, handle]
  | some hdr =>
    by_cases hb : jsStartsWith hdr "Bearer " = true
    · cases hv : env.verify (bearerToken hdr) with
      | error u => simp [handleA, handleB, handle, hb, hv]
      | ok uid =>
        by_cases ho : uid = m
        · cases hfetch : env.fetchIncidents m t with
          | error u => simp [handleA, handleB, handle, hb, hv, ho, hfetch]
          | ok incs =>
            cases incs with
            | nil =>
              simp [handleA, handleB, handle, hb, hv, ho, hfetch, cfgA, cfgB]
            | cons i rest =>
              cases har : env.aiResult with
              | error u => simp [handleA, handleB, handle, hb, hv, ho, hfetch, har]
              | ok otext =>
                cases otext with
                | none => simp [handleA, handleB, handle, hb, hv, ho, hfetch, har]
                | some text =>
                  by_cases htxt : text = ""
                  · simp [handleA, handleB, handle, hb, hv, ho, hfetch, har, htxt]
                  · cases hex : extract text with
                    | error e =>
                      simp [handleA, handleB, handle, hb, hv, ho, hfetch, har, htxt, hex]
                    | ok j =>
                      simp [handleA, handleB, handle, hb, hv, ho, hfetch, har, htxt, hex]
        · simp [handleA, handleB, handle, hb, hv, ho]
    · simp [handleA, handleB, handle, hb]

/-- Counterexample to C9 as stated: at an empty store the two variants'
short-circuit responses do not coincide — variant A sends empty patterns
and suggestions, variant B an empty scores object. -/
theorem c9_counterexample :
    (handleA req0 (mkEnv (.ok []) (.ok none))).1.body = emptyBodyA ∧
    (handleB req0 (mkEnv (.ok []) (.ok none))).1.body = emptyBodyB ∧
    emptyBodyA ≠ emptyBodyB :=
  ⟨rfl, rfl, by decide⟩

/-- Claim C10: when the text contains both braces but the last closing
brace precedes the first opening brace, extract never fails with
noJsonFound: JavaScript substring swaps its arguments, so the text
strictly between the two indices is passed to the JSON parser, and a
parse failure there is reported as malformedJson. -/
theorem c10_swapped_substring (raw : String) (si ei : Nat)
    (hsi : firstIdx '\x7b' raw.toList = some si)
    (hei : lastIdx '\x7d' raw.toList = some ei) (hlt : ei < si) :
    extract raw ≠ .error .noJsonFound ∧
    extract raw =
      (match parseTextL ((raw.toList.take si).drop (ei + 1)) with
        | .ok j => .ok j
        | .error e => .error (.malformedJson e)) ∧
    (∀ e, parseTextL ((raw.toList.take si).drop (ei + 1)) = .error e →
      extract raw = .error (.malformedJson e)) := by
  have hsi' : firstIdx '\x7b' raw.data = some si := hsi
  have hei' : lastIdx '\x7d' raw.data = some ei := hei
  have hsub : jsSubstring raw.data si (ei + 1) = (raw.data.take si).drop (ei + 1) := by
    unfold jsSubstring
    rw [min_eq_right (by omega), max_eq_left (by omega)]
  have heq : extract raw =
      (match parseTextL ((raw.toList.take si).drop (ei + 1)) with
        | .ok j => .ok j
        | .error e => .error (.malformedJson e)) := by
    simp [extract, hsi', hei', hsub]
  refine ⟨?_, heq, ?_⟩
  · rw [heq]
    cases hp : parseTextL ((raw.toList.take si).drop (ei + 1)) <;> simp
  · intro e hp
    rw [heq, hp]

/-- Witness for C10 at the two-character text closing-brace
opening-brace: the swapped substring is empty, the parse fails, and the
failure is malformedJson, not noJsonFound. -/
theorem c10_swapped_substring_witness :
    extract "\x7d\x7b" ≠ .error .noJsonFound ∧
    extract "\x7d\x7b" = .error (.malformedJson "unexpected end of input") :=
  ⟨(c10_swapped_substring "\x7d\x7b" 1 0 rfl rfl (by omega)).1,
   (c10_swapped_substring "\x7d\x7b" 1 0 rfl rfl (by omega)).2.2
     "unexpected end of input" rfl⟩

end MentorBackend
